import Mathlib

/-!
Verification of the DeKeyBounce debounce engine.

The program intercepts keyboard press/release events and decides, per key,
whether to pass each event through or swallow it as switch bounce.  The
per-key state is a `KeyData` record stored in a set keyed by the key code;
the field `nLastKeyUpTimestamp` holds either the monotonic timestamp of the
last recorded key-up, or `0` as a sentinel meaning the key is considered
logically held after a swallowed press.

All machine integers of the program are 64-bit unsigned; we model them as
`Nat` values below `U64MOD = 2 ^ 64`, reducing modulo `U64MOD` exactly where
the C code's arithmetic can overflow (the sum `T + theMinTimestampDiff` in
the press comparison, and the millisecond-to-nanosecond conversion at
start-up).
-/

namespace DeKeyBounce

/-- Modulus of 64-bit unsigned arithmetic. -/
def U64MOD : Nat := 2 ^ 64

/-- The per-key record stored in `theKeySet` (struct `_KeyData` in the C
source).  `nLastKeyUpTimestamp = 0` is the sentinel for "logically held". -/
structure KeyData where
  nKeyCode : Nat
  nLastKeyUpTimestamp : Nat
deriving DecidableEq, Repr

/-- The set equality callback: two records are equal when their key codes
coincide (`IsKeyDataEqual` in the C source). -/
def IsKeyDataEqual (pValue1 pValue2 : KeyData) : Bool :=
  pValue1.nKeyCode == pValue2.nKeyCode

/-- Lookup in the key set by the callback equality, as `CFSetGetValue` does
with `IsKeyDataEqual`: return the (unique) stored record whose key code
matches the probe's key code. -/
def CFSetGetValue (theKeySet : List KeyData) (probe : KeyData) : Option KeyData :=
  theKeySet.find? (fun d => IsKeyDataEqual d probe)

/-- Insertion into the key set, as `CFSetAddValue`: a copy of the record is
stored if no record with an equal key code is present. -/
def CFSetAddValue (theKeySet : List KeyData) (v : KeyData) : List KeyData :=
  if (CFSetGetValue theKeySet v).isSome then theKeySet else theKeySet ++ [v]

/-- In-place mutation of the stored record found for `probe`
(`pOldKeyData->nLastKeyUpTimestamp = t` in the C source): every stored
record with the probe's key code (there is at most one) gets timestamp `t`. -/
def setTimestamp (theKeySet : List KeyData) (probe : KeyData) (t : Nat) : List KeyData :=
  theKeySet.map (fun d =>
    if IsKeyDataEqual d probe then { d with nLastKeyUpTimestamp := t } else d)

/-- The two event types the tap registers for. -/
inductive CGEventType where
  | kCGEventKeyDown
  | kCGEventKeyUp
deriving DecidableEq, Repr

/-- An incoming key event: type, key code, monotonic timestamp. -/
structure Event where
  aEventType : CGEventType
  nKeyCode : Nat
  nTimestamp : Nat
deriving DecidableEq, Repr

/-- The engine's decision: pass the event through (`rEvent` returned
unchanged) or swallow it (`rEvent = NULL`). -/
inductive Verdict where
  | pass
  | swallow
deriving DecidableEq, Repr

/-- The engine state: the configured minimum timestamp difference
(`theMinTimestampDiff`, in nanoseconds) and the per-key table
(`theKeySet`). -/
structure Engine where
  theMinTimestampDiff : Nat
  theKeySet : List KeyData
deriving DecidableEq, Repr

/-- The core callback `OnKeyEvent` of the C source, as a pure step function
from engine state and event to verdict and new engine state.

The C body builds `aNewKeyData` from the event, looks up the stored record
with the same key code, then switches on the event type:
key-down with no record passes; key-down on the sentinel swallows;
key-down with `timestamp < storedTimestamp + theMinTimestampDiff`
(64-bit wrapping sum) swallows and stores the sentinel; otherwise passes.
Key-up with no record adds the record and passes; key-up on the sentinel
stores the timestamp and swallows; otherwise stores the timestamp and
passes. -/
def OnKeyEvent (eng : Engine) (e : Event) : Verdict × Engine :=
  let aNewKeyData : KeyData := ⟨e.nKeyCode, e.nTimestamp⟩
  match CFSetGetValue eng.theKeySet aNewKeyData with
  | none =>
    match e.aEventType with
    | .kCGEventKeyDown => (.pass, eng)
    | .kCGEventKeyUp =>
      (.pass, { eng with theKeySet := CFSetAddValue eng.theKeySet aNewKeyData })
  | some pOldKeyData =>
    match e.aEventType with
    | .kCGEventKeyDown =>
      if pOldKeyData.nLastKeyUpTimestamp = 0 then
        (.swallow, eng)
      else if aNewKeyData.nLastKeyUpTimestamp <
          (pOldKeyData.nLastKeyUpTimestamp + eng.theMinTimestampDiff) % U64MOD then
        (.swallow, { eng with theKeySet := setTimestamp eng.theKeySet aNewKeyData 0 })
      else
        (.pass, eng)
    | .kCGEventKeyUp =>
      if pOldKeyData.nLastKeyUpTimestamp = 0 then
        (.swallow, { eng with theKeySet := setTimestamp eng.theKeySet aNewKeyData e.nTimestamp })
      else
        (.pass, { eng with theKeySet := setTimestamp eng.theKeySet aNewKeyData e.nTimestamp })

/-- The documented default threshold in milliseconds
(`DEFAULT_MIN_TIMESTAMP_DIFF 20UL` in the C source). -/
def DEFAULT_MIN_TIMESTAMP_DIFF : Nat := 20

/-- The start-up computation of `theMinTimestampDiff` in `main`:
`argv[1]` parsed as an unsigned 64-bit integer when supplied (else 0),
replaced by the 20 ms default when zero, then multiplied by 1000000
(milliseconds to nanoseconds) in 64-bit wrapping arithmetic. -/
def mainMinTimestampDiff (arg : Option Nat) : Nat :=
  let parsed : Nat :=
    match arg with
    | none => 0
    | some n => n % U64MOD
  let ms := if parsed = 0 then DEFAULT_MIN_TIMESTAMP_DIFF else parsed
  (ms * 1000000) % U64MOD

/-- The engine state right after start-up: configured threshold, empty key
table (`CFSetCreateMutable` starts empty). -/
def initEngine (m : Nat) : Engine := ⟨m, []⟩

/-- Run the engine over a list of events, returning the final state. -/
def run (eng : Engine) : List Event → Engine
  | [] => eng
  | e :: es => run (OnKeyEvent eng e).2 es

/-- Run the engine over a list of events, returning the list of verdicts. -/
def runVerdicts (eng : Engine) : List Event → List Verdict
  | [] => []
  | e :: es => (OnKeyEvent eng e).1 :: runVerdicts (OnKeyEvent eng e).2 es

/-- The verdicts produced for the events of key `k` only, in order, while
the engine processes the whole interleaved sequence. -/
def verdictsFor (k : Nat) (eng : Engine) : List Event → List Verdict
  | [] => []
  | e :: es =>
    if e.nKeyCode = k then
      (OnKeyEvent eng e).1 :: verdictsFor k (OnKeyEvent eng e).2 es
    else
      verdictsFor k (OnKeyEvent eng e).2 es

/-- The stored timestamp field for key code `k`, when a record exists. -/
def storedTimestamp (eng : Engine) (k : Nat) : Option Nat :=
  (CFSetGetValue eng.theKeySet ⟨k, 0⟩).map (·.nLastKeyUpTimestamp)

/-- Convenience: a press event. -/
def press (k t : Nat) : Event := ⟨.kCGEventKeyDown, k, t⟩

/-- Convenience: a release event. -/
def release (k t : Nat) : Event := ⟨.kCGEventKeyUp, k, t⟩

/-! ### Lemmas about the key set operations -/

theorem CFSetGetValue_probe (l : List KeyData) (k t t' : Nat) :
    CFSetGetValue l ⟨k, t⟩ = CFSetGetValue l ⟨k, t'⟩ := rfl

theorem CFSetGetValue_nil (probe : KeyData) : CFSetGetValue [] probe = none := rfl

theorem CFSetGetValue_cons (d : KeyData) (l : List KeyData) (probe : KeyData) :
    CFSetGetValue (d :: l) probe =
      if d.nKeyCode = probe.nKeyCode then some d else CFSetGetValue l probe := by
  by_cases h : d.nKeyCode = probe.nKeyCode <;>
    simp [CFSetGetValue, IsKeyDataEqual, h]

theorem CFSetGetValue_code {l : List KeyData} {probe d : KeyData}
    (h : CFSetGetValue l probe = some d) : d.nKeyCode = probe.nKeyCode := by
  have hp := List.find?_some h
  simpa [IsKeyDataEqual] using hp

theorem CFSetGetValue_mem {l : List KeyData} {probe d : KeyData}
    (h : CFSetGetValue l probe = some d) : d ∈ l :=
  List.mem_of_find?_eq_some h

theorem CFSetGetValue_setTimestamp (l : List KeyData) (probe probe' : KeyData) (t : Nat) :
    CFSetGetValue (setTimestamp l probe t) probe' =
      (CFSetGetValue l probe').map
        (fun d => if IsKeyDataEqual d probe then { d with nLastKeyUpTimestamp := t } else d) := by
  unfold CFSetGetValue setTimestamp
  rw [List.find?_map]
  have hp : ((fun d => IsKeyDataEqual d probe') ∘
      (fun d => if IsKeyDataEqual d probe then { d with nLastKeyUpTimestamp := t } else d)) =
      (fun d => IsKeyDataEqual d probe') := by
    funext d
    by_cases h : d.nKeyCode = probe.nKeyCode <;> simp [IsKeyDataEqual, h]
  rw [hp]

theorem CFSetGetValue_setTimestamp_self {l : List KeyData} {k0 : Nat} {d : KeyData}
    (h : CFSetGetValue l ⟨k0, 0⟩ = some d) (t0 t : Nat) :
    CFSetGetValue (setTimestamp l ⟨k0, t0⟩ t) ⟨k0, 0⟩ =
      some { d with nLastKeyUpTimestamp := t } := by
  have hc : d.nKeyCode = k0 := CFSetGetValue_code h
  rw [CFSetGetValue_probe _ _ 0 t0, CFSetGetValue_setTimestamp, CFSetGetValue_probe _ _ t0 0, h]
  simp [IsKeyDataEqual, hc]

theorem CFSetGetValue_setTimestamp_other {l : List KeyData} {k k0 : Nat}
    (hk : k ≠ k0) (t0 t : Nat) :
    CFSetGetValue (setTimestamp l ⟨k0, t0⟩ t) ⟨k, 0⟩ = CFSetGetValue l ⟨k, 0⟩ := by
  rw [CFSetGetValue_setTimestamp]
  cases h : CFSetGetValue l ⟨k, 0⟩ with
  | none => rfl
  | some d =>
    have hc : d.nKeyCode = k := CFSetGetValue_code h
    simp [IsKeyDataEqual, hc, hk]

theorem CFSetGetValue_append (l l' : List KeyData) (probe : KeyData) :
    CFSetGetValue (l ++ l') probe =
      (CFSetGetValue l probe).or (CFSetGetValue l' probe) := by
  unfold CFSetGetValue
  exact List.find?_append

theorem CFSetGetValue_addValue_self {l : List KeyData} {k0 t0 : Nat}
    (h : CFSetGetValue l ⟨k0, t0⟩ = none) :
    CFSetGetValue (CFSetAddValue l ⟨k0, t0⟩) ⟨k0, 0⟩ = some ⟨k0, t0⟩ := by
  unfold CFSetAddValue
  rw [h]
  simp only [Option.isSome_none, Bool.false_eq_true, if_false]
  rw [CFSetGetValue_append, CFSetGetValue_probe _ _ 0 t0, h, Option.none_or,
    CFSetGetValue_cons]
  simp

theorem CFSetGetValue_addValue_other {l : List KeyData} {k k0 t0 : Nat}
    (h : CFSetGetValue l ⟨k0, t0⟩ = none) (hk : k ≠ k0) :
    CFSetGetValue (CFSetAddValue l ⟨k0, t0⟩) ⟨k, 0⟩ = CFSetGetValue l ⟨k, 0⟩ := by
  unfold CFSetAddValue
  rw [h]
  simp only [Option.isSome_none, Bool.false_eq_true, if_false]
  rw [CFSetGetValue_append, CFSetGetValue_cons]
  simp [Ne.symm hk, CFSetGetValue_nil]

/-! ### Lemmas about a single `OnKeyEvent` step -/

theorem OnKeyEvent_theMinTimestampDiff (eng : Engine) (e : Event) :
    (OnKeyEvent eng e).2.theMinTimestampDiff = eng.theMinTimestampDiff := by
  obtain ⟨ty, k0, t0⟩ := e
  cases h : CFSetGetValue eng.theKeySet ⟨k0, t0⟩ <;> cases ty <;>
    simp only [OnKeyEvent, h] <;>
    first
    | rfl
    | (split <;> first | rfl | (split <;> rfl))

theorem OnKeyEvent_frame (eng : Engine) (e : Event) (k : Nat) (hk : k ≠ e.nKeyCode) :
    CFSetGetValue (OnKeyEvent eng e).2.theKeySet ⟨k, 0⟩ =
      CFSetGetValue eng.theKeySet ⟨k, 0⟩ := by
  obtain ⟨ty, k0, t0⟩ := e
  simp only [Event.nKeyCode] at hk
  cases h : CFSetGetValue eng.theKeySet ⟨k0, t0⟩ with
  | none =>
    cases ty <;> simp only [OnKeyEvent, h]
    exact CFSetGetValue_addValue_other h hk
  | some d =>
    cases ty <;> simp only [OnKeyEvent, h]
    · split
      · rfl
      · split
        · exact CFSetGetValue_setTimestamp_other hk t0 0
        · rfl
    · split <;> exact CFSetGetValue_setTimestamp_other hk t0 t0

theorem OnKeyEvent_own_key (eng1 eng2 : Engine) (e : Event)
    (hm : eng1.theMinTimestampDiff = eng2.theMinTimestampDiff)
    (hf : CFSetGetValue eng1.theKeySet ⟨e.nKeyCode, 0⟩ =
      CFSetGetValue eng2.theKeySet ⟨e.nKeyCode, 0⟩) :
    (OnKeyEvent eng1 e).1 = (OnKeyEvent eng2 e).1 ∧
    CFSetGetValue (OnKeyEvent eng1 e).2.theKeySet ⟨e.nKeyCode, 0⟩ =
      CFSetGetValue (OnKeyEvent eng2 e).2.theKeySet ⟨e.nKeyCode, 0⟩ := by
  obtain ⟨ty, k0, t0⟩ := e
  simp only [Event.nKeyCode] at hf ⊢
  have hf' : CFSetGetValue eng1.theKeySet ⟨k0, t0⟩ = CFSetGetValue eng2.theKeySet ⟨k0, t0⟩ := by
    rw [CFSetGetValue_probe _ _ t0 0, hf, CFSetGetValue_probe _ _ 0 t0]
  cases h1 : CFSetGetValue eng1.theKeySet ⟨k0, t0⟩ with
  | none =>
    have h2 : CFSetGetValue eng2.theKeySet ⟨k0, t0⟩ = none := by rw [← hf', h1]
    cases ty <;> simp only [OnKeyEvent, h1, h2]
    · exact ⟨by trivial, hf⟩
    · exact ⟨by trivial, by rw [CFSetGetValue_addValue_self h1, CFSetGetValue_addValue_self h2]⟩
  | some d =>
    have h2 : CFSetGetValue eng2.theKeySet ⟨k0, t0⟩ = some d := by rw [← hf', h1]
    have h1' : CFSetGetValue eng1.theKeySet ⟨k0, 0⟩ = some d := by
      rw [CFSetGetValue_probe _ _ 0 t0, h1]
    have h2' : CFSetGetValue eng2.theKeySet ⟨k0, 0⟩ = some d := by
      rw [CFSetGetValue_probe _ _ 0 t0, h2]
    cases ty <;> simp only [OnKeyEvent, h1, h2, hm]
    · split
      · exact ⟨by trivial, hf⟩
      · split
        · exact ⟨by trivial, by
            rw [CFSetGetValue_setTimestamp_self h1' t0 0,
              CFSetGetValue_setTimestamp_self h2' t0 0]⟩
        · exact ⟨by trivial, hf⟩
    · split <;>
        exact ⟨by trivial, by
          rw [CFSetGetValue_setTimestamp_self h1' t0 t0,
            CFSetGetValue_setTimestamp_self h2' t0 t0]⟩

theorem OnKeyEvent_presence (eng : Engine) (e : Event) (k : Nat) :
    (CFSetGetValue (OnKeyEvent eng e).2.theKeySet ⟨k, 0⟩).isSome =
      ((CFSetGetValue eng.theKeySet ⟨k, 0⟩).isSome ||
        (e.aEventType == .kCGEventKeyUp && e.nKeyCode == k)) := by
  obtain ⟨ty, k0, t0⟩ := e
  by_cases hk : k = k0
  · subst hk
    cases h : CFSetGetValue eng.theKeySet ⟨k, t0⟩ with
    | none =>
      have h' : CFSetGetValue eng.theKeySet ⟨k, 0⟩ = none := by
        rw [CFSetGetValue_probe _ _ 0 t0, h]
      cases ty <;> simp only [OnKeyEvent, h]
      · simp [h']
      · simp [CFSetGetValue_addValue_self h]
    | some d =>
      have h' : CFSetGetValue eng.theKeySet ⟨k, 0⟩ = some d := by
        rw [CFSetGetValue_probe _ _ 0 t0, h]
      cases ty <;> simp only [OnKeyEvent, h]
      · split
        · simp [h']
        · split
          · simp [h', CFSetGetValue_setTimestamp_self h' t0 0]
          · simp [h']
      · split <;> simp [h', CFSetGetValue_setTimestamp_self h' t0 t0]
  · rw [OnKeyEvent_frame eng ⟨ty, k0, t0⟩ k hk]
    have hk' : k0 ≠ k := Ne.symm hk
    cases ty <;> simp [hk, hk']

theorem OnKeyEvent_nodup (eng : Engine) (e : Event)
    (h : (eng.theKeySet.map KeyData.nKeyCode).Nodup) :
    (((OnKeyEvent eng e).2.theKeySet.map KeyData.nKeyCode)).Nodup := by
  obtain ⟨ty, k0, t0⟩ := e
  have hset : ∀ (probe : KeyData) (t : Nat),
      (setTimestamp eng.theKeySet probe t).map KeyData.nKeyCode =
        eng.theKeySet.map KeyData.nKeyCode := by
    intro probe t
    rw [setTimestamp, List.map_map]
    apply List.map_congr_left
    intro d _
    by_cases hd : IsKeyDataEqual d probe <;> simp [Function.comp, hd]
  cases hfind : CFSetGetValue eng.theKeySet ⟨k0, t0⟩ with
  | none =>
    cases ty <;> simp only [OnKeyEvent, hfind]
    · exact h
    · unfold CFSetAddValue
      rw [hfind]
      simp only [Option.isSome_none, Bool.false_eq_true, if_false, List.map_append]
      have hnotin : k0 ∉ eng.theKeySet.map KeyData.nKeyCode := by
        intro hmem
        obtain ⟨d, hdmem, hdc⟩ := List.mem_map.mp hmem
        have := List.find?_eq_none.mp hfind d hdmem
        simp [IsKeyDataEqual, hdc] at this
      simp only [List.map_cons, List.map_nil]
      exact List.Nodup.append h (List.nodup_singleton k0)
        (by simpa [List.disjoint_singleton] using hnotin)
  | some d =>
    cases ty <;> simp only [OnKeyEvent, hfind]
    · split
      · exact h
      · split
        · simpa [hset] using h
        · exact h
    · split <;> simpa [hset] using h

/-! ### Lemmas about runs of the engine -/

theorem run_append (evs1 evs2 : List Event) :
    ∀ (eng : Engine), run eng (evs1 ++ evs2) = run (run eng evs1) evs2 := by
  induction evs1 with
  | nil => intro eng; rfl
  | cons e es ih => intro eng; simp only [List.cons_append, run]; exact ih _

theorem run_theMinTimestampDiff (evs : List Event) :
    ∀ (eng : Engine), (run eng evs).theMinTimestampDiff = eng.theMinTimestampDiff := by
  induction evs with
  | nil => intro eng; rfl
  | cons e es ih =>
    intro eng
    rw [run, ih, OnKeyEvent_theMinTimestampDiff]

theorem run_presence (evs : List Event) :
    ∀ (eng : Engine) (k : Nat),
      (CFSetGetValue (run eng evs).theKeySet ⟨k, 0⟩).isSome =
        ((CFSetGetValue eng.theKeySet ⟨k, 0⟩).isSome ||
          evs.any (fun e => e.aEventType == CGEventType.kCGEventKeyUp && e.nKeyCode == k)) := by
  induction evs with
  | nil => intro eng k; simp [run]
  | cons e es ih =>
    intro eng k
    rw [run, ih, OnKeyEvent_presence, List.any_cons, Bool.or_assoc]

theorem run_nodup (evs : List Event) :
    ∀ (eng : Engine), (eng.theKeySet.map KeyData.nKeyCode).Nodup →
      ((run eng evs).theKeySet.map KeyData.nKeyCode).Nodup := by
  induction evs with
  | nil => intro eng h; exact h
  | cons e es ih => intro eng h; exact ih _ (OnKeyEvent_nodup eng e h)

theorem run_filter_agree (k : Nat) (evs : List Event) :
    ∀ (eng1 eng2 : Engine),
      eng1.theMinTimestampDiff = eng2.theMinTimestampDiff →
      CFSetGetValue eng1.theKeySet ⟨k, 0⟩ = CFSetGetValue eng2.theKeySet ⟨k, 0⟩ →
      verdictsFor k eng1 evs =
        runVerdicts eng2 (evs.filter (fun e => e.nKeyCode == k)) ∧
      CFSetGetValue (run eng1 evs).theKeySet ⟨k, 0⟩ =
        CFSetGetValue (run eng2 (evs.filter (fun e => e.nKeyCode == k))).theKeySet ⟨k, 0⟩ := by
  induction evs with
  | nil => intro eng1 eng2 hm hf; exact ⟨rfl, hf⟩
  | cons e es ih =>
    intro eng1 eng2 hm hf
    by_cases hk : e.nKeyCode = k
    · have hf' : CFSetGetValue eng1.theKeySet ⟨e.nKeyCode, 0⟩ =
          CFSetGetValue eng2.theKeySet ⟨e.nKeyCode, 0⟩ := by rw [hk]; exact hf
      have hstep := OnKeyEvent_own_key eng1 eng2 e hm hf'
      have hstepk : CFSetGetValue (OnKeyEvent eng1 e).2.theKeySet ⟨k, 0⟩ =
          CFSetGetValue (OnKeyEvent eng2 e).2.theKeySet ⟨k, 0⟩ := by
        rw [← hk]; exact hstep.2
      have hm' : (OnKeyEvent eng1 e).2.theMinTimestampDiff =
          (OnKeyEvent eng2 e).2.theMinTimestampDiff := by
        rw [OnKeyEvent_theMinTimestampDiff, OnKeyEvent_theMinTimestampDiff, hm]
      have iha := ih (OnKeyEvent eng1 e).2 (OnKeyEvent eng2 e).2 hm' hstepk
      constructor
      · rw [verdictsFor, if_pos hk, List.filter_cons_of_pos (by simpa using hk),
          runVerdicts, hstep.1, iha.1]
      · rw [run, List.filter_cons_of_pos (by simpa using hk), run]
        exact iha.2
    · have hfr : CFSetGetValue (OnKeyEvent eng1 e).2.theKeySet ⟨k, 0⟩ =
          CFSetGetValue eng1.theKeySet ⟨k, 0⟩ :=
        OnKeyEvent_frame eng1 e k (fun h => hk h.symm)
      have hm' : (OnKeyEvent eng1 e).2.theMinTimestampDiff = eng2.theMinTimestampDiff := by
        rw [OnKeyEvent_theMinTimestampDiff, hm]
      have iha := ih (OnKeyEvent eng1 e).2 eng2 hm' (by rw [hfr]; exact hf)
      constructor
      · rw [verdictsFor, if_neg hk, List.filter_cons_of_neg (by simpa using hk)]
        exact iha.1
      · rw [run, List.filter_cons_of_neg (by simpa using hk)]
        exact iha.2

theorem storedTimestamp_some {eng : Engine} {k T : Nat}
    (h : storedTimestamp eng k = some T) :
    ∃ d, CFSetGetValue eng.theKeySet ⟨k, 0⟩ = some d ∧ d.nLastKeyUpTimestamp = T := by
  unfold storedTimestamp at h
  cases hf : CFSetGetValue eng.theKeySet ⟨k, 0⟩ with
  | none => rw [hf] at h; cases h
  | some d =>
    rw [hf] at h
    simp only [Option.map_some', Option.some.injEq] at h
    exact ⟨d, rfl, h⟩

theorem storedTimestamp_none {eng : Engine} {k : Nat}
    (h : storedTimestamp eng k = none) :
    CFSetGetValue eng.theKeySet ⟨k, 0⟩ = none := by
  unfold storedTimestamp at h
  cases hf : CFSetGetValue eng.theKeySet ⟨k, 0⟩ with
  | none => rfl
  | some d => rw [hf] at h; cases h

/-! ### The claims -/

/-- Claim C1, amended with the proviso `T + minInterval < 2 ^ 64`: for a key
whose record holds a baseline `T` (not the sentinel 0), when the 64-bit sum
`T + theMinTimestampDiff` does not wrap, a press at `timestamp ≥ T +
theMinTimestampDiff` passes and leaves the whole engine state unchanged,
and a press at `timestamp < T + theMinTimestampDiff` is swallowed and sets
the record to the sentinel 0 (`PRESSED`). -/
theorem press_on_baseline_no_overflow (eng : Engine) (k T t : Nat)
    (hT : storedTimestamp eng k = some T) (hT0 : T ≠ 0)
    (hno : T + eng.theMinTimestampDiff < U64MOD) :
    (T + eng.theMinTimestampDiff ≤ t →
      OnKeyEvent eng (press k t) = (Verdict.pass, eng)) ∧
    (t < T + eng.theMinTimestampDiff →
      (OnKeyEvent eng (press k t)).1 = Verdict.swallow ∧
      storedTimestamp (OnKeyEvent eng (press k t)).2 k = some 0) := by
  obtain ⟨d, hd, hdT⟩ := storedTimestamp_some hT
  have hd' : CFSetGetValue eng.theKeySet ⟨k, t⟩ = some d := by
    rw [CFSetGetValue_probe _ _ t 0]; exact hd
  have hd0 : ¬d.nLastKeyUpTimestamp = 0 := by rw [hdT]; exact hT0
  have hmod : (d.nLastKeyUpTimestamp + eng.theMinTimestampDiff) % U64MOD =
      T + eng.theMinTimestampDiff := by rw [hdT]; exact Nat.mod_eq_of_lt hno
  constructor
  · intro hge
    simp only [press, OnKeyEvent, hd']
    rw [if_neg hd0, hmod, if_neg (Nat.not_lt.mpr hge)]
  · intro hlt
    simp only [press, OnKeyEvent, hd']
    rw [if_neg hd0, hmod, if_pos hlt]
    refine ⟨rfl, ?_⟩
    unfold storedTimestamp
    rw [CFSetGetValue_setTimestamp_self hd t 0]
    rfl

/-- Witness for the amended claim C1 at a concrete engine. -/
theorem press_on_baseline_no_overflow_witness :
    (storedTimestamp (⟨20, [⟨0, 100⟩]⟩ : Engine) 0 = some 100 ∧ (100 : Nat) ≠ 0 ∧
      100 + (⟨20, [⟨0, 100⟩]⟩ : Engine).theMinTimestampDiff < U64MOD) ∧
    OnKeyEvent (⟨20, [⟨0, 100⟩]⟩ : Engine) (press 0 120) =
      (Verdict.pass, (⟨20, [⟨0, 100⟩]⟩ : Engine)) ∧
    ((OnKeyEvent (⟨20, [⟨0, 100⟩]⟩ : Engine) (press 0 110)).1 = Verdict.swallow ∧
      storedTimestamp (OnKeyEvent (⟨20, [⟨0, 100⟩]⟩ : Engine) (press 0 110)).2 0 = some 0) :=
  ⟨⟨by decide, by decide, by decide⟩,
    (press_on_baseline_no_overflow (⟨20, [⟨0, 100⟩]⟩ : Engine) 0 100 120
      (by decide) (by decide) (by decide)).1 (by decide),
    (press_on_baseline_no_overflow (⟨20, [⟨0, 100⟩]⟩ : Engine) 0 100 110
      (by decide) (by decide) (by decide)).2 (by decide)⟩

/-- Counterexample to claim C1 as stated: with the default configuration,
a key released at timestamp `2 ^ 64 - 1` holds baseline `T = 2 ^ 64 - 1`;
a press at the same timestamp arrives less than `minInterval` after `T`
(mathematically `2 ^ 64 - 1 < T + minInterval`), yet the wrapped 64-bit
comparison makes the engine return Pass, not the Swallow the claim
requires. -/
theorem press_on_baseline_overflow_cex :
    storedTimestamp (run (initEngine (mainMinTimestampDiff none))
        [release 0 (U64MOD - 1)]) 0 = some (U64MOD - 1) ∧
    (run (initEngine (mainMinTimestampDiff none))
        [release 0 (U64MOD - 1)]).theMinTimestampDiff = mainMinTimestampDiff none ∧
    U64MOD - 1 < (U64MOD - 1) + mainMinTimestampDiff none ∧
    (OnKeyEvent (run (initEngine (mainMinTimestampDiff none)) [release 0 (U64MOD - 1)])
        (press 0 (U64MOD - 1))).1 = Verdict.pass ∧
    Verdict.pass ≠ Verdict.swallow := by decide

/-- Claim C2: on a key whose record holds the sentinel 0 (`PRESSED`), a
press is swallowed with the whole engine state unchanged, and a release is
swallowed with the record's stored timestamp set to the release's
timestamp. -/
theorem pressed_sentinel_behavior (eng : Engine) (k t : Nat)
    (h : storedTimestamp eng k = some 0) :
    OnKeyEvent eng (press k t) = (Verdict.swallow, eng) ∧
    (OnKeyEvent eng (release k t)).1 = Verdict.swallow ∧
    storedTimestamp (OnKeyEvent eng (release k t)).2 k = some t := by
  obtain ⟨d, hd, hd0⟩ := storedTimestamp_some h
  have hd' : CFSetGetValue eng.theKeySet ⟨k, t⟩ = some d := by
    rw [CFSetGetValue_probe _ _ t 0]; exact hd
  refine ⟨?_, ?_, ?_⟩
  · simp only [press, OnKeyEvent, hd']
    rw [if_pos hd0]
  · simp only [release, OnKeyEvent, hd']
    rw [if_pos hd0]
  · simp only [release, OnKeyEvent, hd']
    rw [if_pos hd0]
    unfold storedTimestamp
    rw [CFSetGetValue_setTimestamp_self hd t t]
    rfl

/-- Witness for claim C2 at a concrete engine. -/
theorem pressed_sentinel_behavior_witness :
    storedTimestamp (⟨20, [⟨0, 0⟩]⟩ : Engine) 0 = some 0 ∧
    OnKeyEvent (⟨20, [⟨0, 0⟩]⟩ : Engine) (press 0 5) =
      (Verdict.swallow, (⟨20, [⟨0, 0⟩]⟩ : Engine)) ∧
    (OnKeyEvent (⟨20, [⟨0, 0⟩]⟩ : Engine) (release 0 7)).1 = Verdict.swallow ∧
    storedTimestamp (OnKeyEvent (⟨20, [⟨0, 0⟩]⟩ : Engine) (release 0 7)).2 0 = some 7 :=
  ⟨by decide,
    (pressed_sentinel_behavior (⟨20, [⟨0, 0⟩]⟩ : Engine) 0 5 (by decide)).1,
    (pressed_sentinel_behavior (⟨20, [⟨0, 0⟩]⟩ : Engine) 0 7 (by decide)).2.1,
    (pressed_sentinel_behavior (⟨20, [⟨0, 0⟩]⟩ : Engine) 0 7 (by decide)).2.2⟩

/-- Claim C3: on a key with no record, a press passes and leaves the whole
engine state unchanged (no record created), and a release passes and
creates a record carrying the release's timestamp. -/
theorem absent_record_behavior (eng : Engine) (k t : Nat)
    (h : storedTimestamp eng k = none) :
    OnKeyEvent eng (press k t) = (Verdict.pass, eng) ∧
    (OnKeyEvent eng (release k t)).1 = Verdict.pass ∧
    storedTimestamp (OnKeyEvent eng (release k t)).2 k = some t := by
  have hd := storedTimestamp_none h
  have hd' : CFSetGetValue eng.theKeySet ⟨k, t⟩ = none := by
    rw [CFSetGetValue_probe _ _ t 0]; exact hd
  refine ⟨?_, ?_, ?_⟩
  · simp only [press, OnKeyEvent, hd']
  · simp only [release, OnKeyEvent, hd']
  · simp only [release, OnKeyEvent, hd']
    unfold storedTimestamp
    rw [CFSetGetValue_addValue_self hd']
    rfl

/-- Witness for claim C3 at the empty engine. -/
theorem absent_record_behavior_witness :
    storedTimestamp (initEngine 20) 3 = none ∧
    OnKeyEvent (initEngine 20) (press 3 5) = (Verdict.pass, initEngine 20) ∧
    (OnKeyEvent (initEngine 20) (release 3 9)).1 = Verdict.pass ∧
    storedTimestamp (OnKeyEvent (initEngine 20) (release 3 9)).2 3 = some 9 :=
  ⟨by decide,
    (absent_record_behavior (initEngine 20) 3 5 (by decide)).1,
    (absent_record_behavior (initEngine 20) 3 9 (by decide)).2.1,
    (absent_record_behavior (initEngine 20) 3 9 (by decide)).2.2⟩

/-- Claim C4: on a key whose record holds a baseline `T ≠ 0`, a release
always passes and unconditionally stores the release's timestamp, for any
elapsed time; moreover, in full generality, any release the engine
swallows was evaluated on a record holding the sentinel 0 (`PRESSED`), so
a release is never swallowed on a timing basis. -/
theorem release_on_baseline_behavior (eng : Engine) (k T t : Nat)
    (hT : storedTimestamp eng k = some T) (hT0 : T ≠ 0) :
    (OnKeyEvent eng (release k t)).1 = Verdict.pass ∧
    storedTimestamp (OnKeyEvent eng (release k t)).2 k = some t ∧
    ∀ (eng2 : Engine) (k2 t2 : Nat),
      (OnKeyEvent eng2 (release k2 t2)).1 = Verdict.swallow →
      storedTimestamp eng2 k2 = some 0 := by
  obtain ⟨d, hd, hdT⟩ := storedTimestamp_some hT
  have hd' : CFSetGetValue eng.theKeySet ⟨k, t⟩ = some d := by
    rw [CFSetGetValue_probe _ _ t 0]; exact hd
  have hd0 : ¬d.nLastKeyUpTimestamp = 0 := by rw [hdT]; exact hT0
  refine ⟨?_, ?_, ?_⟩
  · simp only [release, OnKeyEvent, hd']
    rw [if_neg hd0]
  · simp only [release, OnKeyEvent, hd']
    rw [if_neg hd0]
    unfold storedTimestamp
    rw [CFSetGetValue_setTimestamp_self hd t t]
    rfl
  · intro eng2 k2 t2 hsw
    cases hf : CFSetGetValue eng2.theKeySet ⟨k2, t2⟩ with
    | none =>
      simp only [release, OnKeyEvent, hf] at hsw
      exact Verdict.noConfusion hsw
    | some d2 =>
      by_cases h0 : d2.nLastKeyUpTimestamp = 0
      · have hf0 : CFSetGetValue eng2.theKeySet ⟨k2, 0⟩ = some d2 := by
          rw [CFSetGetValue_probe _ _ 0 t2]; exact hf
        unfold storedTimestamp
        rw [hf0, Option.map_some', h0]
      · simp only [release, OnKeyEvent, hf] at hsw
        rw [if_neg h0] at hsw
        exact Verdict.noConfusion hsw

/-- Witness for claim C4 at a concrete engine, with an elapsed time far
above the threshold. -/
theorem release_on_baseline_behavior_witness :
    (storedTimestamp (⟨20, [⟨0, 7⟩]⟩ : Engine) 0 = some 7 ∧ (7 : Nat) ≠ 0) ∧
    (OnKeyEvent (⟨20, [⟨0, 7⟩]⟩ : Engine) (release 0 900)).1 = Verdict.pass ∧
    storedTimestamp (OnKeyEvent (⟨20, [⟨0, 7⟩]⟩ : Engine) (release 0 900)).2 0 = some 900 :=
  ⟨⟨by decide, by decide⟩,
    (release_on_baseline_behavior (⟨20, [⟨0, 7⟩]⟩ : Engine) 0 7 900
      (by decide) (by decide)).1,
    (release_on_baseline_behavior (⟨20, [⟨0, 7⟩]⟩ : Engine) 0 7 900
      (by decide) (by decide)).2.1⟩

/-- Claim C5: the five-event scenario at `minInterval = 20` (all values in
the same time unit) yields the verdicts Pass, Swallow, Swallow, Pass,
Pass, and key 0's stored timestamp after each prefix is 0, 0 (the
state the code treats as the `PRESSED` sentinel), 8, 8, 60. -/
theorem scenario_default_threshold :
    runVerdicts (initEngine 20)
      [release 0 0, press 0 5, release 0 8, press 0 40, release 0 60] =
      [Verdict.pass, Verdict.swallow, Verdict.swallow, Verdict.pass, Verdict.pass] ∧
    storedTimestamp (run (initEngine 20) [release 0 0]) 0 = some 0 ∧
    storedTimestamp (run (initEngine 20) [release 0 0, press 0 5]) 0 = some 0 ∧
    storedTimestamp (run (initEngine 20) [release 0 0, press 0 5, release 0 8]) 0 = some 8 ∧
    storedTimestamp (run (initEngine 20)
      [release 0 0, press 0 5, release 0 8, press 0 40]) 0 = some 8 ∧
    storedTimestamp (run (initEngine 20)
      [release 0 0, press 0 5, release 0 8, press 0 40, release 0 60]) 0 = some 60 := by
  decide

/-- Claim C6: in every state reachable from the empty table, the key codes
of the stored records are pairwise distinct (at most one record per key), a
record for `k` exists exactly when some release event for `k` has been
processed, and a record, once present, survives any further events. -/
theorem keyset_invariants (m : Nat) (evs more : List Event) (k : Nat) :
    ((run (initEngine m) evs).theKeySet.map KeyData.nKeyCode).Nodup ∧
    ((storedTimestamp (run (initEngine m) evs) k).isSome = true ↔
      ∃ e ∈ evs, e.aEventType = CGEventType.kCGEventKeyUp ∧ e.nKeyCode = k) ∧
    ((storedTimestamp (run (initEngine m) evs) k).isSome = true →
      (storedTimestamp (run (initEngine m) (evs ++ more)) k).isSome = true) := by
  have hpres : ∀ (l : List Event),
      (storedTimestamp (run (initEngine m) l) k).isSome =
        l.any (fun e => e.aEventType == CGEventType.kCGEventKeyUp && e.nKeyCode == k) := by
    intro l
    unfold storedTimestamp
    rw [Option.isSome_map', run_presence]
    simp [initEngine, CFSetGetValue_nil]
  refine ⟨?_, ?_, ?_⟩
  · exact run_nodup evs (initEngine m) (by simp [initEngine])
  · rw [hpres, List.any_eq_true]
    constructor
    · rintro ⟨e, he, hcond⟩
      rw [Bool.and_eq_true, beq_iff_eq, beq_iff_eq] at hcond
      exact ⟨e, he, hcond.1, hcond.2⟩
    · rintro ⟨e, he, h1, h2⟩
      refine ⟨e, he, ?_⟩
      rw [Bool.and_eq_true, beq_iff_eq, beq_iff_eq]
      exact ⟨h1, h2⟩
  · intro h
    rw [hpres] at h
    rw [hpres, List.any_append, h, Bool.true_or]

/-- Witness for claim C6: a processed release makes the record present. -/
theorem keyset_invariants_witness :
    (storedTimestamp (run (initEngine 20) [release 0 5]) 0).isSome = true :=
  (keyset_invariants 20 [release 0 5] [] 0).2.1.mpr
    ⟨release 0 5, by decide, by decide, by decide⟩

/-- Claim C7: starting from the empty table, the verdicts for key `k`'s
events in an interleaved sequence equal the verdicts obtained by running
only `k`'s events, `k`'s final record is likewise determined by `k`'s
events alone, and one event for a different key never changes `k`'s
record. -/
theorem per_key_independence (m : Nat) (evs : List Event) (k : Nat)
    (eng : Engine) (e : Event) :
    verdictsFor k (initEngine m) evs =
      runVerdicts (initEngine m) (evs.filter (fun e2 => e2.nKeyCode == k)) ∧
    storedTimestamp (run (initEngine m) evs) k =
      storedTimestamp (run (initEngine m) (evs.filter (fun e2 => e2.nKeyCode == k))) k ∧
    (e.nKeyCode ≠ k → storedTimestamp (OnKeyEvent eng e).2 k = storedTimestamp eng k) := by
  have h := run_filter_agree k evs (initEngine m) (initEngine m) rfl rfl
  refine ⟨h.1, ?_, ?_⟩
  · unfold storedTimestamp
    rw [h.2]
  · intro hne
    unfold storedTimestamp
    rw [OnKeyEvent_frame eng e k (Ne.symm hne)]

/-- Witness for claim C7: an event on key 1 leaves key 0's record alone. -/
theorem per_key_independence_witness :
    storedTimestamp (OnKeyEvent (⟨20, [⟨0, 5⟩]⟩ : Engine) (release 1 9)).2 0 =
      storedTimestamp (⟨20, [⟨0, 5⟩]⟩ : Engine) 0 :=
  (per_key_independence 20 [] 0 (⟨20, [⟨0, 5⟩]⟩ : Engine) (release 1 9)).2.2 (by decide)

/-- Claim C8: configuring with no argument or with 0 yields the same
threshold as configuring with the documented 20 ms default, namely
20 ms converted to nanoseconds, and the resulting engines behave
identically (same final state and same verdicts) on every event
sequence. -/
theorem configuration_default_equivalence (evs : List Event) :
    mainMinTimestampDiff none = mainMinTimestampDiff (some 0) ∧
    mainMinTimestampDiff none = mainMinTimestampDiff (some DEFAULT_MIN_TIMESTAMP_DIFF) ∧
    mainMinTimestampDiff none = 20 * 1000000 ∧
    run (initEngine (mainMinTimestampDiff none)) evs =
      run (initEngine (mainMinTimestampDiff (some 0))) evs ∧
    runVerdicts (initEngine (mainMinTimestampDiff none)) evs =
      runVerdicts (initEngine (mainMinTimestampDiff (some 0))) evs ∧
    run (initEngine (mainMinTimestampDiff (some 0))) evs =
      run (initEngine (mainMinTimestampDiff (some DEFAULT_MIN_TIMESTAMP_DIFF))) evs ∧
    runVerdicts (initEngine (mainMinTimestampDiff (some 0))) evs =
      runVerdicts (initEngine (mainMinTimestampDiff (some DEFAULT_MIN_TIMESTAMP_DIFF))) evs := by
  have h0 : mainMinTimestampDiff none = mainMinTimestampDiff (some 0) := by decide
  have h20 : mainMinTimestampDiff none =
      mainMinTimestampDiff (some DEFAULT_MIN_TIMESTAMP_DIFF) := by decide
  refine ⟨h0, h20, by decide, ?_, ?_, ?_, ?_⟩
  · rw [h0]
  · rw [h0]
  · rw [← h0, h20]
  · rw [← h0, h20]

/-- Claim C9: the sentinel encoding conflates a genuine zero timestamp with
`PRESSED`.  From the empty table under the default configuration, a release
carrying the valid timestamp 0 passes but leaves the key's record holding
0, the sentinel; the following press, although it arrives at a timestamp
at least `T + minInterval` past the baseline `T = 0`, is swallowed instead
of the Pass the state-machine table requires. -/
theorem release_zero_timestamp_conflation :
    (OnKeyEvent (initEngine (mainMinTimestampDiff none)) (release 0 0)).1 = Verdict.pass ∧
    storedTimestamp
      (OnKeyEvent (initEngine (mainMinTimestampDiff none)) (release 0 0)).2 0 = some 0 ∧
    0 + mainMinTimestampDiff none ≤ 30000000 ∧
    (OnKeyEvent (OnKeyEvent (initEngine (mainMinTimestampDiff none)) (release 0 0)).2
      (press 0 30000000)).1 = Verdict.swallow ∧
    Verdict.swallow ≠ Verdict.pass := by decide

/-- Claim C10: the press comparison uses the 64-bit wrapping sum
`(T + theMinTimestampDiff) % 2 ^ 64`.  Whenever the baseline `T` and the
effective threshold derived from a configured millisecond value make the
true sum reach `2 ^ 64`, some press arriving less than the threshold after
`T` is passed instead of swallowed. -/
theorem press_comparison_wraparound (T ms : Nat) (hT : T < U64MOD)
    (hwrap : U64MOD ≤ T + mainMinTimestampDiff (some ms)) :
    ∃ t, t < U64MOD ∧ T ≤ t ∧ t < T + mainMinTimestampDiff (some ms) ∧
      (OnKeyEvent (⟨mainMinTimestampDiff (some ms), [⟨0, T⟩]⟩ : Engine)
        (press 0 t)).1 = Verdict.pass := by
  have hmlt : mainMinTimestampDiff (some ms) < U64MOD := by
    unfold mainMinTimestampDiff
    exact Nat.mod_lt _ (by decide)
  have hT0 : T ≠ 0 := by
    intro h0
    rw [h0, Nat.zero_add] at hwrap
    exact absurd hwrap (Nat.not_le.mpr hmlt)
  refine ⟨T, hT, Nat.le_refl T, Nat.lt_of_lt_of_le hT hwrap, ?_⟩
  have hfind : CFSetGetValue [(⟨0, T⟩ : KeyData)] ⟨0, T⟩ = some ⟨0, T⟩ := by
    rw [CFSetGetValue_cons]
    simp
  simp only [press, OnKeyEvent, hfind]
  rw [if_neg hT0]
  have hmod : (T + mainMinTimestampDiff (some ms)) % U64MOD =
      T + mainMinTimestampDiff (some ms) - U64MOD := by
    rw [Nat.mod_eq_sub_mod hwrap]
    exact Nat.mod_eq_of_lt (by omega)
  rw [hmod, if_neg (by omega)]

/-- Witness for claim C10 with the default 20 ms threshold and the largest
64-bit baseline. -/
theorem press_comparison_wraparound_witness :
    (U64MOD - 1 < U64MOD ∧ U64MOD ≤ (U64MOD - 1) + mainMinTimestampDiff (some 20)) ∧
    (∃ t, t < U64MOD ∧ U64MOD - 1 ≤ t ∧
      t < (U64MOD - 1) + mainMinTimestampDiff (some 20) ∧
      (OnKeyEvent (⟨mainMinTimestampDiff (some 20), [⟨0, U64MOD - 1⟩]⟩ : Engine)
        (press 0 t)).1 = Verdict.pass) :=
  ⟨⟨by decide, by decide⟩,
    press_comparison_wraparound (U64MOD - 1) 20 (by decide) (by decide)⟩

end DeKeyBounce
